import Mathlib

/-!
Shallow embedding of the gpu-scrapper repository (TypeScript) in Lean 4.

Modules embedded:
* `src/src/scraping.ts` — keyword classification, DOM extraction pipeline,
  per-store scraping and the orchestrator `scrapeAllStores`;
* `src/src/mcp-data-transformer.ts` — store map construction and the
  scrape-result → MCP payload transformation, plus the `McpClient`
  call-correlation state machine (`callMethod` / `handleMessage` / timers);
* `src/unnamed/part_005` — the sqlite upsert layer (`getOrCreateItemId`,
  `updateItem`, `insertItem`) and the `saveResultsWithMcp` relay control flow.

DOM elements are modelled by the projections the code actually takes of them
(`querySelector(sel)?.textContent`, the `href`s of descendant `a[href]`
anchors, the element's own `href`).  JavaScript numbers are modelled as `ℚ`
(`NaN` appears as `Option.none` exactly where the code can produce it);
JavaScript strings as `String`, with text processing carried out on the
underlying `List Char`.
-/

namespace GpuScrapper

/-- Characters removed by the JavaScript `\s` regex class and by
`String.prototype.trim` for the ASCII inputs this program handles. -/
def jsWhitespaceChar (c : Char) : Bool :=
  c == ' ' || c == '\t' || c == '\n' || c == '\r' || c == '\x0b' || c == '\x0c'

/-- Model of `String.prototype.trim`: drop leading and trailing whitespace. -/
def jsTrim (l : List Char) : List Char :=
  ((l.dropWhile jsWhitespaceChar).reverse.dropWhile jsWhitespaceChar).reverse

/-- Model of `String.prototype.trim` at the `String` level. -/
def jsTrimS (s : String) : String :=
  String.mk (jsTrim s.data)

/-- Model of `s.replace(c, r)` with a single-character pattern: JavaScript
`replace` with a string pattern rewrites only the first occurrence. -/
def replaceFirst (l : List Char) (c r : Char) : List Char :=
  match l with
  | [] => []
  | x :: xs => if x = c then r :: xs else x :: replaceFirst xs c r

/-- Numeric value of a digit string (most significant digit first). -/
def digitsToNat (l : List Char) : Nat :=
  l.foldl (fun n c => 10 * n + (c.toNat - 48)) 0

/-- Model of JavaScript `parseFloat` restricted to the strings this program
feeds it: sequences of decimal digits, `,` and at most one `.` (no sign, no
exponent, no leading whitespace — everything else was already stripped).
`parseFloat` reads the longest prefix of the form `digits [ "." digits ]` and
yields `NaN` (modelled as `none`) when that prefix is empty. -/
def jsParseFloat (l : List Char) : Option ℚ :=
  let intDs := l.takeWhile Char.isDigit
  let rest := l.drop intDs.length
  match rest with
  | '.' :: r2 =>
    let fracDs := r2.takeWhile Char.isDigit
    if intDs = [] ∧ fracDs = [] then none
    else some ((digitsToNat intDs : ℚ) + (digitsToNat fracDs : ℚ) / (10 : ℚ) ^ fracDs.length)
  | _ => if intDs = [] then none else some (digitsToNat intDs : ℚ)

/-- Does the list `l` start with the list `p`? -/
def leadsWith : List Char → List Char → Bool
  | [], _ => true
  | _ :: _, [] => false
  | a :: as, b :: bs => a == b && leadsWith as bs

/-- Model of `String.prototype.startsWith`. -/
def jsStartsWith (s p : String) : Bool :=
  leadsWith p.data s.data

/-- Model of `String.prototype.includes`: does `haystack` contain `needle`
as a contiguous substring? -/
def jsIncludes : List Char → List Char → Bool
  | [], needle => needle.isEmpty
  | h :: t, needle => leadsWith needle (h :: t) || jsIncludes t needle

/-- Product category, `src/unnamed/part_003` (`types.ts`): `"GPU" | "CPU"`. -/
inductive Category where
  | GPU
  | CPU
deriving DecidableEq, Repr

/-- The `Item` record of `types.ts`. -/
structure Item where
  name : String
  price : ℚ
  url : String
  store : String
  category : Category
deriving DecidableEq, Repr

/-- The `ScrapingResult` record of `types.ts`. -/
structure ScrapingResult where
  products : List Item
  errors : List String
deriving DecidableEq, Repr

/-- A DOM element, seen through the projections `scraping.ts` takes of it:
`textOf sel` is `querySelector(sel)?.textContent` (`none` when no descendant
matches `sel`), `anchorHrefs` lists the `href` property of each descendant
`a[href]` in document order, and `selfHref` is the element's own `href`
property when the element is itself an anchor. -/
structure Element where
  textOf : String → Option String
  anchorHrefs : List String
  selfHref : Option String

/-- A parsed document, seen through `querySelectorAll`: `elemsOf sel` is the
list of elements matching `sel`, in document order. -/
structure Document where
  elemsOf : String → List Element

/-- `GPU_KEYWORDS` from `scraping.ts`. -/
def GPU_KEYWORDS : List String :=
  ["7700xt", "7900xt", "7900xtx", "Radeon", "XFX", "MSI", "Shapphire",
   "PowerColor", "Gigabyte", "5070 ti", "5080", "4070 ti super", "GeForce"]

/-- `CPU_KEYWORDS` from `scraping.ts`. -/
def CPU_KEYWORDS : List String :=
  ["ryzen 7", "ryzen 9", "ryzen 5"]

/-- `PRODUCT_SELECTORS` from `scraping.ts`. -/
def PRODUCT_SELECTORS : List String :=
  [".prdContainer", ".product-grid__card", ".productBox", ".product-item"]

/-- `NAME_SELECTORS` from `scraping.ts`. -/
def NAME_SELECTORS : List String :=
  [".prdTitle", ".product-card__title", ".product-name", ".product-item-link"]

/-- `PRICE_SELECTORS` from `scraping.ts`. -/
def PRICE_SELECTORS : List String :=
  [".prsEuro", ".js-sales-price-wrapper", ".price"]

/-- Normalisation applied by `isGPU`/`isCPU` to the product name:
`productName.replace(/\s+/g, "").toLowerCase()`. -/
def normName (s : String) : List Char :=
  (s.data.filter (fun c => !(jsWhitespaceChar c))).map Char.toLower

/-- `isGPU` from `scraping.ts`: does the whitespace-stripped lower-cased name
contain some lower-cased GPU keyword as a substring? -/
def isGPU (productName : String) : Bool :=
  GPU_KEYWORDS.any (fun keyword => jsIncludes (normName productName) (keyword.data.map Char.toLower))

/-- `isCPU` from `scraping.ts`. -/
def isCPU (productName : String) : Bool :=
  CPU_KEYWORDS.any (fun keyword => jsIncludes (normName productName) (keyword.data.map Char.toLower))

/-- `extractProductName` from `scraping.ts`: first selector whose (trimmed)
text is non-empty, else `""`. -/
def extractProductName (element : Element) (nameSelectors : List String) : String :=
  ((nameSelectors.map (fun sel => ((element.textOf sel).map jsTrimS).getD "")).find?
      (fun name => name ≠ "")).getD ""

/-- The body of the `priceSelectors.map` callback in `extractProductPrice`:
the numeric value the selector contributes.  `some q` is a JavaScript number,
`none` is `NaN` (possible because `parseFloat` runs on the stripped text). -/
def perSelectorPrice (element : Element) (sel : String) : Option ℚ :=
  match element.textOf sel with
  | none => some (-1)
  | some t =>
    if jsTrim t.data ≠ [] then
      let stripped := t.data.filter (fun c => c.isDigit || c == ',' || c == '.')
      let noDots := stripped.filter (fun c => !(c == '.'))
      let decimalized := replaceFirst noDots ',' '.'
      let priceText := jsTrim decimalized
      if priceText ≠ [] then jsParseFloat priceText else some (-1)
    else some (-1)

/-- JavaScript truthiness of `price > 0` for the values of `perSelectorPrice`
(`NaN > 0` is false). -/
def isPositivePrice (v : Option ℚ) : Bool :=
  match v with
  | some q => decide (0 < q)
  | none => false

/-- `extractProductPrice` from `scraping.ts`: the `.find((price) => price > 0)
|| -1` over the per-selector values. -/
def extractProductPrice (element : Element) (priceSelectors : List String) : ℚ :=
  match (priceSelectors.map (perSelectorPrice element)).find? isPositivePrice with
  | some (some q) => q
  | _ => -1

/-- Declared from the spec's words, for the refinement claim about
`extractProductPrice`: "overall result is the first strictly positive value
found, else sentinel `-1`". -/
def specFirstPositive (vals : List (Option ℚ)) : ℚ :=
  match vals with
  | [] => -1
  | some q :: rest => if 0 < q then q else specFirstPositive rest
  | none :: rest => specFirstPositive rest

/-- `extractProductUrl` from `scraping.ts`. -/
def extractProductUrl (element : Element) (storeBaseUrl : String) : String :=
  match element.anchorHrefs.find? (fun href => href ≠ "") with
  | some linkHref =>
    if jsStartsWith linkHref "http" then linkHref else storeBaseUrl ++ linkHref
  | none =>
    match element.selfHref with
    | some href => if href ≠ "" then href else ""
    | none => ""

/-- `extractSingleProduct` from `scraping.ts`.  The JavaScript guard is
`if (!name || !price)`: on a string `!` holds exactly for `""`, and on a
number exactly for `0` and `NaN` (and `extractProductPrice` never returns
`NaN`, its total result being a real `ℚ`), so the guard is `name = "" ∨ price = 0`. -/
def extractSingleProduct (element : Element) (storeName storeBaseUrl : String)
    (nameSelectors priceSelectors : List String) : Option Item :=
  let name := extractProductName element nameSelectors
  let price := extractProductPrice element priceSelectors
  let url := extractProductUrl element storeBaseUrl
  if name = "" ∨ price = 0 then none
  else some { name := name, price := price, url := url, store := storeName,
              category := if isGPU name then Category.GPU else Category.CPU }

/-- `extractProducts` from `scraping.ts`: the first product selector matching
at least one element is used exclusively; extracted items are kept only when
they match the GPU or CPU keyword lists. -/
def extractProducts (document : Document) (storeName storeBaseUrl : String) : List Item :=
  let products :=
    match PRODUCT_SELECTORS.find? (fun sel => decide (0 < (document.elemsOf sel).length)) with
    | some sel =>
      (document.elemsOf sel).filterMap
        (fun element =>
          extractSingleProduct element storeName storeBaseUrl NAME_SELECTORS PRICE_SELECTORS)
    | none => []
  products.filter (fun product => isGPU product.name || isCPU product.name)

/-- The key equality used by the dedup filter in `scrapeAllStores`:
`p.name === product.name && p.store === product.store`. -/
def sameKey (p product : Item) : Bool :=
  p.name == product.name && p.store == product.store

/-- The `(name, store)` dedup key of an item (proof-side abbreviation for the
pair compared by `sameKey`). -/
def keyOf (p : Item) : String × String :=
  (p.name, p.store)

/-- Model of `Array.prototype.findIndex`: index of the first element
satisfying `p`, and `-1` when there is none. -/
def jsFindIndex (p : α → Bool) : List α → Int
  | [] => -1
  | x :: xs =>
    if p x then 0
    else
      let r := jsFindIndex p xs
      if r < 0 then -1 else r + 1

/-- The `uniqueProducts` dedup step of `scrapeAllStores`:
`products.filter((product, index, self) => index === self.findIndex(p => sameKey p product))`. -/
def uniqueProducts (products : List Item) : List Item :=
  (products.enum.filter
      (fun pi => jsFindIndex (fun p => sameKey p pi.2) products == (pi.1 : Int))).map
    Prod.snd

/-- The `Store` configuration record of `config/stores.ts`. -/
structure StoreCfg where
  name : String
  baseUrl : String
  searchPath : String
  searchParam : String
  requiresBrowser : Bool
deriving DecidableEq, Repr

/-- Outcome of one underlying fetch/browser scrape of one store for one term
(the body of `scrapeStoreWithBrowser` / `scrapeStoreWithFetch`): either the
extracted items, or the thrown error, stringified. -/
abbrev ScrapeAttempt := Except String (List Item)

/-- `scrapeStore` from `scraping.ts`: the try/catch around the two fetch
strategies.  Any thrown error is caught here, logged, and converted into an
empty item list, so the function itself never throws (always `Except.ok`). -/
def scrapeStore (attempt : ScrapeAttempt) : Except String (List Item) :=
  match attempt with
  | Except.ok items => Except.ok items
  | Except.error _ => Except.ok []

/-- `scrapeAllStores` from `scraping.ts`.  `attemptOf store term` is the
outcome of the underlying network/browser scrape for that store and term.
The inner try/catch appends the formatted error string when the body of the
loop iteration throws; `delay` never throws. -/
def scrapeAllStores (attemptOf : StoreCfg → String → ScrapeAttempt)
    (stores : List StoreCfg) (searchTerms : List String) : ScrapingResult :=
  let acc :=
    stores.foldl
      (fun acc store =>
        searchTerms.foldl
          (fun acc searchTerm =>
            match scrapeStore (attemptOf store searchTerm) with
            | Except.ok storeProducts => (acc.1 ++ storeProducts, acc.2)
            | Except.error e =>
              (acc.1,
               acc.2 ++ ["Failed to scrape " ++ store.name ++ " for \"" ++ searchTerm
                   ++ "\": " ++ e]))
          acc)
      ([], [])
  { products := uniqueProducts acc.1, errors := acc.2 }

/-! ### Persistence layer (`src/unnamed/part_005`, sqlite upsert) -/

/-- A row of the `item` table (`init.sql`). -/
structure ItemRow where
  id : Nat
  price : ℚ
  name : String
  url : String
  store_id : Nat
  item_type : Category
deriving DecidableEq, Repr

/-- The `item` table together with the rowid counter: sqlite assigns
`lastInsertRowid` as successive positive integers, modelled by `nextId`. -/
structure Db where
  items : List ItemRow
  nextId : Nat
deriving DecidableEq, Repr

/-- `findItemId`: `SELECT id FROM item WHERE name = ? AND store_id = ? AND
item_type = ?`, first matching row. -/
def findItemId (db : Db) (product : Item) (storeId : Nat) : Option Nat :=
  (db.items.find?
      (fun r => r.name == product.name && r.store_id == storeId
        && r.item_type == product.category)).map
    (fun r => r.id)

/-- `updateItem`: `UPDATE item SET price = ?, url = ? WHERE id = ?`. -/
def updateItem (db : Db) (product : Item) (itemId : Nat) : Db :=
  { db with
    items := db.items.map
      (fun r => if r.id == itemId then { r with price := product.price, url := product.url } else r) }

/-- `insertItem`: `INSERT INTO item ...`, returning `lastInsertRowid`. -/
def insertItem (db : Db) (product : Item) (storeId : Nat) : Db × Nat :=
  let id := db.nextId
  let row : ItemRow :=
    { id := id, price := product.price, name := product.name,
      url := product.url, store_id := storeId, item_type := product.category }
  ({ items := db.items ++ [row], nextId := id + 1 }, id)

/-- `getOrCreateItemId` from `src/unnamed/part_005`.  The JavaScript guard is
`if (existingId)`, which is falsy for `undefined` and for the number `0`
(sqlite never hands out rowid 0, see `DbWF`). -/
def getOrCreateItemId (db : Db) (product : Item) (storeId : Nat) : Db × Nat :=
  match findItemId db product storeId with
  | some existingId =>
    if existingId ≠ 0 then (updateItem db product existingId, existingId)
    else insertItem db product storeId
  | none => insertItem db product storeId

/-- Well-formedness of the modelled table: sqlite rowids are positive, and the
next rowid to be assigned is positive as well. -/
def DbWF (db : Db) : Prop :=
  db.nextId ≠ 0 ∧ ∀ r ∈ db.items, r.id ≠ 0

/-! ### MCP data transformer (`src/src/mcp-data-transformer.ts`) -/

/-- The `McpStore` record. -/
structure McpStore where
  id : Option Nat
  name : String
deriving DecidableEq, Repr

/-- The `McpItem` record. -/
structure McpItem where
  price : ℚ
  name : String
  url : String
  item_type : Category
  store : McpStore
deriving DecidableEq, Repr

/-- The `McpScrapeData` record (the optional `id` field is never set by the
transformer). -/
structure McpScrapeData where
  timestamp : String
  items : List McpItem
deriving DecidableEq, Repr

/-- Insertion-ordered deduplication, the semantics of `[...new Set(xs)]`. -/
def jsSetDedup (seen : List String) : List String → List String
  | [] => []
  | x :: xs => if x ∈ seen then jsSetDedup seen xs else x :: jsSetDedup (x :: seen) xs

/-- `createStoreMap`: a `Map` from each distinct store name (first-occurrence
order) to an `McpStore` with `id = index + 1`.  The `Map` is modelled as an
association list with unique keys. -/
def createStoreMap (products : List Item) : List (String × McpStore) :=
  ((jsSetDedup [] (products.map (fun p => p.store))).enum).map
    (fun p => (p.2, { id := some (p.1 + 1), name := p.2 }))

/-- The `McpItem` record built by `transformItemToMcp` once the store lookup
has succeeded (proof-side abbreviation of its return literal). -/
def mcpOf (item : Item) (st : McpStore) : McpItem :=
  { price := item.price, name := item.name, url := item.url,
    item_type := item.category, store := { id := st.id, name := st.name } }

/-- `Map.prototype.get` on the association-list model. -/
def storeMapGet (storeMap : List (String × McpStore)) (name : String) : Option McpStore :=
  (storeMap.find? (fun e => e.1 == name)).map (fun e => e.2)

/-- `transformItemToMcp`: throws (modelled as `Except.error`) when the item's
store is not in the store map. -/
def transformItemToMcp (item : Item) (storeMap : List (String × McpStore)) :
    Except String McpItem :=
  match storeMapGet storeMap item.store with
  | none => Except.error ("Store '" ++ item.store ++ "' not found in store map")
  | some store =>
    Except.ok
      { price := item.price, name := item.name, url := item.url,
        item_type := item.category, store := { id := store.id, name := store.name } }

/-- `transformScrapingResultToMcp` (the timestamp, `new Date().toISOString()`,
is passed in as `now`). -/
def transformScrapingResultToMcp (now : String) (result : ScrapingResult) :
    Except String McpScrapeData :=
  let storeMap := createStoreMap result.products
  (result.products.mapM (fun item => transformItemToMcp item storeMap)).map
    (fun mcpItems => { timestamp := now, items := mcpItems })

/-! ### MCP client call correlation (`McpClient` in `src/src/mcp-data-transformer.ts`) -/

/-- An MCP tool descriptor (`McpTool`); the `inputSchema` field plays no role
in the control flow modelled here and is omitted. -/
structure McpTool where
  name : String
  description : String
deriving DecidableEq, Repr

/-- `listTools`: `response.tools ?? []` — an absent `tools` field (`none`)
becomes the empty list. -/
def listTools (responseTools : Option (List McpTool)) : List McpTool :=
  responseTools.getD []

/-- How a pending call resolves. -/
inductive Outcome where
  | ok
  | rpcError (code : Int)
  | timedOut (method : String)
deriving DecidableEq, Repr

/-- The mutable state of `McpClient` relevant to call correlation:
`callIdCounter` and the pending-calls map.  Each pending entry keeps the
call's method, which in the source lives in the timeout closure of that call
(ids are never reused, so the association is exact). -/
structure ClientState where
  callIdCounter : Nat
  pending : List (Nat × String)
deriving DecidableEq, Repr

/-- The events that touch the pending-calls map: `callMethod` registering a
new call, an inbound message handled by `handleMessage` (its `id` field may be
missing/falsy, hence `Option`), and a per-call timeout timer firing. -/
inductive ClientEvent where
  | call (method : String)
  | message (id : Option Nat) (isErr : Bool) (code : Int)
  | timer (id : Nat)
deriving DecidableEq, Repr

/-- `Map.prototype.has` on the pending-calls map. -/
def pendingHas (pending : List (Nat × String)) (id : Nat) : Bool :=
  pending.any (fun e => e.1 == id)

/-- `Map.prototype.delete` on the pending-calls map (keys are unique, so
filtering is exact deletion). -/
def pendingRemove (pending : List (Nat × String)) (id : Nat) : List (Nat × String) :=
  pending.filter (fun e => !(e.1 == id))

/-- One transition of the `McpClient` correlation state machine, returning the
new state and the resolution (if any) this event produced:
* `call m` — `callMethod`: `const callId = (++this.callIdCounter).toString()`,
  then `this.pendingCalls.set(callId, ...)`; the promise resolves later.
* `message id isErr code` — `handleMessage`: `if (message.id &&
  this.pendingCalls.has(message.id))` delete the entry and reject (`error`
  branch) or resolve (`result` branch); otherwise the message is ignored.
* `timer id` — the `setTimeout` callback in `callMethod`: `if
  (this.pendingCalls.has(callId))` delete the entry and reject with the
  timeout error naming the method. -/
def clientStep (s : ClientState) : ClientEvent → ClientState × Option (Nat × Outcome)
  | ClientEvent.call method =>
    let callId := s.callIdCounter + 1
    ({ callIdCounter := callId, pending := s.pending ++ [(callId, method)] }, none)
  | ClientEvent.message none _ _ => (s, none)
  | ClientEvent.message (some id) isErr code =>
    match s.pending.find? (fun e => e.1 == id) with
    | some _ =>
      ({ s with pending := pendingRemove s.pending id },
       some (id, if isErr then Outcome.rpcError code else Outcome.ok))
    | none => (s, none)
  | ClientEvent.timer id =>
    match s.pending.find? (fun e => e.1 == id) with
    | some e =>
      ({ s with pending := pendingRemove s.pending id }, some (id, Outcome.timedOut e.2))
    | none => (s, none)

/-- A whole event sequence, from the freshly constructed client
(`callIdCounter = 0`, empty pending map), collecting every resolution. -/
def clientRun (evs : List ClientEvent) : ClientState × List (Nat × Outcome) :=
  evs.foldl
    (fun acc e =>
      let r := clientStep acc.1 e
      (r.1, acc.2 ++ r.2.toList))
    ({ callIdCounter := 0, pending := [] }, [])

/-- The correlation invariant of the client state machine: every pending id is
positive and bounded by the counter, pending ids are pairwise distinct, and
every resolution already emitted has an id that is bounded by the counter, is
no longer pending, and was emitted only once. -/
def ClientInv (s : ClientState) (outs : List (Nat × Outcome)) : Prop :=
  (∀ p ∈ s.pending, p.1 ≤ s.callIdCounter ∧ p.1 ≠ 0) ∧
  (s.pending.map Prod.fst).Nodup ∧
  (∀ o ∈ outs, o.1 ≤ s.callIdCounter ∧ ∀ p ∈ s.pending, p.1 ≠ o.1) ∧
  (outs.map Prod.fst).Nodup

/-- Control-flow skeleton of `saveResultsWithMcp` (`src/unnamed/part_005`,
lines 283–346) up to and including the `tools/call` issue point.  The AI tool
selection and the payload validation verdict are abstracted as the
`selectedTool` and `validationErrors` parameters; the second component lists
the `tools/call` requests issued over the connection. -/
def saveResultsWithMcp (availableTools : List McpTool) (selectedTool : McpTool)
    (validationErrors : List String) : Except String Unit × List String :=
  if availableTools.length = 0 then (Except.error "No MCP tools available", [])
  else if validationErrors.length ≠ 0 then
    (Except.error ("MCP data validation failed: " ++ String.intercalate ", " validationErrors), [])
  else (Except.ok (), [selectedTool.name])

/-! ### Concrete inputs used by the claim theorems and witnesses -/

/-- An element whose name selector matches but with no price element at all
(`extractProductPrice` will yield the sentinel `-1`). -/
def elC1 : Element :=
  { textOf := fun sel => if sel == ".prdTitle" then some "MSI Radeon RX 7700 XT" else none,
    anchorHrefs := [], selfHref := none }

/-- A store configuration whose scrape attempt fails. -/
def cfgA : StoreCfg :=
  { name := "A", baseUrl := "https://a.example", searchPath := "/s",
    searchParam := "q", requiresBrowser := false }

/-- A store configuration whose scrape attempt succeeds. -/
def cfgB : StoreCfg :=
  { name := "B", baseUrl := "https://b.example", searchPath := "/s",
    searchParam := "q", requiresBrowser := true }

/-- The single item returned by store `B`. -/
def itemC2 : Item :=
  { name := "Radeon 7700XT", price := 600, url := "https://b.example/p/1",
    store := "B", category := Category.GPU }

/-- Scrape outcomes: store `A` throws, store `B` returns one item. -/
def attemptC2 : StoreCfg → String → ScrapeAttempt :=
  fun store _ =>
    if store.name == "A" then Except.error "Error: fetch failed" else Except.ok [itemC2]

/-- An element whose single price selector carries the European price form. -/
def elC5 : Element :=
  { textOf := fun sel => if sel == ".prsEuro" then some "€1.234,56" else none,
    anchorHrefs := [], selfHref := none }

/-- First occurrence of the duplicated `(name, store)` key. -/
def itemC6a : Item :=
  { name := "A", price := 10, url := "u1", store := "S", category := Category.GPU }

/-- Two items with the same `(name, store)` key but different price/url, and a
third with a different key. -/
def itemsC6 : List Item :=
  [itemC6a,
   { name := "A", price := 20, url := "u2", store := "S", category := Category.GPU },
   { name := "B", price := 30, url := "u3", store := "S", category := Category.CPU }]

/-- A complete product element: GPU name, European price, relative link. -/
def elC7 : Element :=
  { textOf := fun sel =>
      if sel == ".prdTitle" then some "Radeon 7700XT"
      else if sel == ".prsEuro" then some "€599"
      else none,
    anchorHrefs := ["/p/1"], selfHref := none }

/-- A document with one product container holding `elC7`. -/
def docC7 : Document :=
  { elemsOf := fun sel => if sel == ".prdContainer" then [elC7] else [] }

/-- The item extracted from `elC7` inside `docC7`. -/
def itemC7w : Item :=
  { name := "Radeon 7700XT", price := 599, url := "https://s.example/p/1",
    store := "S", category := Category.GPU }

/-- An element whose only descendant anchor carries a relative href. -/
def elC8 : Element :=
  { textOf := fun _ => none, anchorHrefs := ["/p/1"], selfHref := none }

/-- Two observations of the same `(name, storeId, category)` identity with
different price and url. -/
def itemC4a : Item :=
  { name := "Radeon 7700XT", price := 599, url := "https://m/p/1",
    store := "Megekko", category := Category.GPU }

/-- Second observation of the identity of `itemC4a`. -/
def itemC4b : Item :=
  { name := "Radeon 7700XT", price := 549, url := "https://m/p/1-b",
    store := "Megekko", category := Category.GPU }

/-- A fresh database, as sqlite would present it (first rowid is 1). -/
def dbC4 : Db := { items := [], nextId := 1 }

/-! ## Theorems -/

/-! ### Generic helper lemmas -/

/-- An alphabetic character survives none of the price-stripping classes:
it is not a digit, not `,`, and not `.`. -/
theorem alpha_char_not_kept {c : Char} (h : c.isAlpha = true) :
    (c.isDigit || c == ',' || c == '.') = false := by
  have hval : (65 ≤ c.val.toNat ∧ c.val.toNat ≤ 90) ∨
      (97 ≤ c.val.toNat ∧ c.val.toNat ≤ 122) := by
    simp only [Char.isAlpha, Char.isUpper, Char.isLower, Bool.or_eq_true, Bool.and_eq_true,
      decide_eq_true_eq, ge_iff_le] at h
    exact h
  have hcomma : (c == ',') = false := by
    rw [beq_eq_false_iff_ne]
    intro he; subst he; exact absurd hval (by decide)
  have hdot : (c == '.') = false := by
    rw [beq_eq_false_iff_ne]
    intro he; subst he; exact absurd hval (by decide)
  have hd : c.isDigit = false := by
    cases hd : c.isDigit with
    | false => rfl
    | true =>
      exfalso
      simp only [Char.isDigit, Bool.and_eq_true, decide_eq_true_eq, ge_iff_le] at hd
      have h2 : 48 ≤ c.val.toNat ∧ c.val.toNat ≤ 57 := hd
      omega
  simp [hcomma, hdot, hd]

/-- `perSelectorPrice` on a selector with no matching element. -/
theorem perSelectorPrice_of_none {element : Element} {sel : String}
    (h : element.textOf sel = none) : perSelectorPrice element sel = some (-1) := by
  unfold perSelectorPrice
  rw [h]

/-- `perSelectorPrice` on the European price form `€1.234,56`.  (The pipeline
is evaluated by `rfl` up to the point where rational arithmetic appears, which
`norm_num` then closes.) -/
theorem perSelectorPrice_euro {element : Element} {sel : String}
    (h : element.textOf sel = some "€1.234,56") :
    perSelectorPrice element sel = some 1234.56 := by
  have h1 : perSelectorPrice element sel = jsParseFloat "1234.56".data := by
    unfold perSelectorPrice
    rw [h]
    rfl
  have h2 : jsParseFloat "1234.56".data =
      some ((1234 : ℚ) + (56 : ℚ) / (10 : ℚ) ^ (2 : ℕ)) := rfl
  rw [h1, h2]
  norm_num

/-- Unfolding of `extractProductPrice` on an empty selector list. -/
theorem extractProductPrice_nil (element : Element) :
    extractProductPrice element [] = -1 := rfl

/-- Unfolding of `extractProductPrice` on a selector-list cons. -/
theorem extractProductPrice_cons (element : Element) (sel : String) (rest : List String) :
    extractProductPrice element (sel :: rest) =
      (match perSelectorPrice element sel with
       | some q => if 0 < q then q else extractProductPrice element rest
       | none => extractProductPrice element rest) := by
  unfold extractProductPrice
  cases hv : perSelectorPrice element sel with
  | none => simp [List.find?, isPositivePrice, hv]
  | some q =>
    by_cases hq : 0 < q
    · simp [List.find?, isPositivePrice, hv, hq]
    · simp [List.find?, isPositivePrice, hv, hq]

/-- The refinement backing C5's last clause: `extractProductPrice` computes
exactly the spec's "first strictly positive value, else `-1`" over the
per-selector values. -/
theorem extractProductPrice_eq_specFirstPositive (element : Element)
    (priceSelectors : List String) :
    extractProductPrice element priceSelectors =
      specFirstPositive (priceSelectors.map (perSelectorPrice element)) := by
  induction priceSelectors with
  | nil => rfl
  | cons sel rest ih =>
    rw [extractProductPrice_cons]
    cases hv : perSelectorPrice element sel with
    | none => simp [specFirstPositive, hv, ih]
    | some q => by_cases hq : 0 < q <;> simp [specFirstPositive, hv, hq, ih]

/-! ### C5 -/

/-- C5: a price element whose text is the European form `€1.234,56` makes
`extractProductPrice` return exactly `1234.56`; an alphabetic-only price text
contributes the sentinel `-1`; and over the ordered selector list the overall
result is the first strictly positive parsed value, else `-1`. -/
theorem extractProductPrice_european_format :
    (∀ (element : Element) (priceSelectors : List String),
        (∀ sel ∈ priceSelectors,
            element.textOf sel = none ∨ element.textOf sel = some "€1.234,56") →
        (∃ sel ∈ priceSelectors, element.textOf sel = some "€1.234,56") →
        extractProductPrice element priceSelectors = 1234.56) ∧
    (∀ (element : Element) (sel : String) (t : String),
        element.textOf sel = some t → (∀ c ∈ t.data, c.isAlpha = true) →
        perSelectorPrice element sel = some (-1)) ∧
    (∀ (element : Element) (priceSelectors : List String),
        extractProductPrice element priceSelectors =
          specFirstPositive (priceSelectors.map (perSelectorPrice element))) := by
  refine ⟨?_, ?_, extractProductPrice_eq_specFirstPositive⟩
  · intro element priceSelectors hall hex
    induction priceSelectors with
    | nil => simp at hex
    | cons sel rest ih =>
      rcases hall sel (List.mem_cons_self sel rest) with hnone | heuro
      · rw [extractProductPrice_cons, perSelectorPrice_of_none hnone]
        have : ¬ ((0 : ℚ) < -1) := by norm_num
        simp only [this, if_false]
        refine ih (fun s hs => hall s (List.mem_cons_of_mem _ hs)) ?_
        rcases hex with ⟨s, hs, hval⟩
        rcases List.mem_cons.mp hs with rfl | hs'
        · rw [hnone] at hval; exact absurd hval (by simp)
        · exact ⟨s, hs', hval⟩
      · rw [extractProductPrice_cons, perSelectorPrice_euro heuro]
        norm_num
  · intro element sel t h halpha
    have hstrip : t.data.filter (fun c => c.isDigit || c == ',' || c == '.') = [] := by
      rw [List.filter_eq_nil_iff]
      intro c hc
      simp [alpha_char_not_kept (halpha c hc)]
    unfold perSelectorPrice
    rw [h]
    by_cases htrim : jsTrim t.data = []
    · simp [htrim]
    · simp only [hstrip, htrim, ne_eq, not_false_iff, if_true]
      decide

/-- Witness for C5, at a concrete element and selector list. -/
theorem extractProductPrice_european_format_witness :
    extractProductPrice elC5 [".prsEuro"] = 1234.56 :=
  extractProductPrice_european_format.1 elC5 [".prsEuro"] (by decide)
    ⟨".prsEuro", by decide, by decide⟩

/-! ### C8 -/

/-- C8: when the first descendant anchor carries a non-empty relative href the
extracted url is the store's base url concatenated with it; an absolute
`http(s)` href is returned unchanged; with no descendant anchor and no own
href the result is the empty string. -/
theorem extractProductUrl_resolution (element : Element) (storeBaseUrl : String) :
    (∀ href rest, element.anchorHrefs = href :: rest → href ≠ "" →
        jsStartsWith href "http" = false →
        extractProductUrl element storeBaseUrl = storeBaseUrl ++ href) ∧
    (∀ href rest, element.anchorHrefs = href :: rest → href ≠ "" →
        jsStartsWith href "http" = true →
        extractProductUrl element storeBaseUrl = href) ∧
    (element.anchorHrefs = [] → element.selfHref = none →
        extractProductUrl element storeBaseUrl = "") := by
  refine ⟨?_, ?_, ?_⟩
  · intro href rest heq hne hsw
    unfold extractProductUrl
    rw [heq, List.find?_cons_of_pos _ (by simp [hne])]
    simp [hsw]
  · intro href rest heq hne hsw
    unfold extractProductUrl
    rw [heq, List.find?_cons_of_pos _ (by simp [hne])]
    simp [hsw]
  · intro hanch hself
    unfold extractProductUrl
    rw [hanch, hself]
    rfl

/-- Witness for C8, at a concrete element with a relative href. -/
theorem extractProductUrl_resolution_witness :
    extractProductUrl elC8 "https://www.megekko.nl" = "https://www.megekko.nl" ++ "/p/1" :=
  (extractProductUrl_resolution elC8 "https://www.megekko.nl").1 "/p/1" [] rfl
    (by decide) (by decide)

/-! ### C1 -/

/-- C1 (code bug): with a non-empty GPU name and no price element at all,
`extractProductPrice` yields the sentinel `-1`, yet `extractSingleProduct`
still produces an `Item` carrying `price = -1` — the JavaScript guard
`if (!name || !price)` is falsy only for `0`/`NaN` and `-1` is truthy — so
the claimed rejection of non-positive prices does not happen. -/
theorem extractSingleProduct_keeps_sentinel_price :
    extractProductPrice elC1 PRICE_SELECTORS = -1 ∧
    extractSingleProduct elC1 "Megekko" "https://www.megekko.nl" NAME_SELECTORS
        PRICE_SELECTORS =
      some { name := "MSI Radeon RX 7700 XT", price := -1, url := "",
             store := "Megekko", category := Category.GPU } := by
  constructor
  · decide
  · decide

/-! ### C2 -/

/-- C2 (code bug): `scrapeStore` catches every failure of the underlying
fetch/browser scrape and returns an empty item list, so it never throws;
consequently the catch branch of `scrapeAllStores` that appends the formatted
`Failed to scrape {store} for "{term}": {cause}` string is unreachable — on a
run where store `A` fails and store `B` succeeds, the orchestration does
continue to store `B`, but the returned `errors` list is empty. -/
theorem scrapeAllStores_swallows_failures :
    (∀ attempt : ScrapeAttempt, ∃ items, scrapeStore attempt = Except.ok items) ∧
    scrapeAllStores attemptC2 [cfgA, cfgB] ["7900 xtx"] =
      { products := [itemC2], errors := [] } := by
  constructor
  · intro attempt
    cases attempt with
    | ok items => exact ⟨items, rfl⟩
    | error e => exact ⟨[], rfl⟩
  · decide

/-! ### C9 -/

/-- C9: a `tools/list` response carrying `{result: {tools: []}}` makes
`listTools` return the empty list (not an error), and the relay path then
fails with `No MCP tools available` without issuing any `tools/call`. -/
theorem listTools_empty_relay_guard :
    listTools (some []) = [] ∧
    ∀ (selectedTool : McpTool) (validationErrors : List String),
      saveResultsWithMcp (listTools (some [])) selectedTool validationErrors =
        (Except.error "No MCP tools available", []) :=
  ⟨rfl, fun _ _ => rfl⟩

/-! ### C6: dedup lemmas -/

/-- `sameKey` is exactly equality of the `(name, store)` keys. -/
theorem sameKey_iff {a b : Item} : sameKey a b = true ↔ keyOf a = keyOf b := by
  simp [sameKey, keyOf, Prod.ext_iff]

/-- Every item matches its own key. -/
theorem sameKey_self (a : Item) : sameKey a a = true := by
  simp [sameKey]

/-- Items with equal keys induce the same `findIndex` predicate. -/
theorem sameKey_congr {x y : Item} (h : keyOf y = keyOf x) :
    (fun q => sameKey q y) = (fun q => sameKey q x) := by
  funext q
  have h1 : y.name = x.name := congrArg Prod.fst h
  have h2 : y.store = x.store := congrArg Prod.snd h
  simp [sameKey, h1, h2]

/-- When `findIndex` returns a non-negative index, the element there is the
first one satisfying the predicate (`find?` returns exactly it). -/
theorem jsFindIndex_spec (p : Item → Bool) (l : List Item) (i : Nat)
    (h : jsFindIndex p l = (i : Int)) : ∃ x, l.get? i = some x ∧ l.find? p = some x := by
  induction l generalizing i with
  | nil =>
    exfalso
    have hne : jsFindIndex p ([] : List Item) = -1 := rfl
    rw [hne] at h
    omega
  | cons a as ih =>
    unfold jsFindIndex at h
    by_cases hp : p a
    · rw [if_pos hp] at h
      have hi : i = 0 := by omega
      subst hi
      exact ⟨a, rfl, by simp [List.find?, hp]⟩
    · rw [if_neg hp] at h
      by_cases hneg : jsFindIndex p as < 0
      · rw [if_pos hneg] at h
        omega
      · rw [if_neg hneg] at h
        have hi : 1 ≤ i := by omega
        have hr : jsFindIndex p as = ((i - 1 : Nat) : Int) := by omega
        obtain ⟨x, hget, hfind⟩ := ih (i - 1) hr
        refine ⟨x, ?_, by simp [List.find?, hp, hfind]⟩
        have : i = (i - 1) + 1 := by omega
        rw [this]
        simpa using hget

/-- When some element at index `i` satisfies `p`, `findIndex` returns a
non-negative index that is at most `i`. -/
theorem jsFindIndex_le (p : Item → Bool) (l : List Item) (i : Nat) (x : Item)
    (hget : l.get? i = some x) (hp : p x = true) :
    ∃ j : Nat, j ≤ i ∧ jsFindIndex p l = (j : Int) := by
  induction l generalizing i with
  | nil => simp at hget
  | cons a as ih =>
    by_cases hpa : p a
    · exact ⟨0, Nat.zero_le _, by simp [jsFindIndex, hpa]⟩
    · cases i with
      | zero =>
        exfalso
        have : a = x := by simpa using hget
        rw [this] at hpa
        exact hpa hp
      | succ n =>
        have hget' : as.get? n = some x := by simpa using hget
        obtain ⟨j, hj, hje⟩ := ih n hget'
        refine ⟨j + 1, by omega, ?_⟩
        have hnn : ¬ (jsFindIndex p as < 0) := by rw [hje]; omega
        unfold jsFindIndex
        rw [if_neg hpa, if_neg hnn, hje]
        push_cast
        ring

/-- In a duplicate-free list, `get?` is injective on present values. -/
theorem get?_inj_of_nodup {β : Type} {l : List β} (hnd : l.Nodup) {i j : Nat} {v : β}
    (hi : l.get? i = some v) (hj : l.get? j = some v) : i = j := by
  rw [List.get?_eq_getElem?] at hi hj
  have hlen : i < l.length := by
    by_contra hc
    rw [List.getElem?_eq_none (by omega)] at hi
    exact Option.noConfusion hi
  exact List.getElem?_inj hlen hnd (hi.trans hj.symm)

/-- Membership in the dedup output, characterised by the filter condition. -/
theorem mem_uniqueProducts_iff {l : List Item} {y : Item} :
    y ∈ uniqueProducts l ↔
      ∃ i, l.get? i = some y ∧ jsFindIndex (fun q => sameKey q y) l = (i : Int) := by
  unfold uniqueProducts
  constructor
  · intro hy
    obtain ⟨⟨i, x⟩, hmem, rfl⟩ := List.mem_map.mp hy
    obtain ⟨henum, hfi⟩ := List.mem_filter.mp hmem
    refine ⟨i, List.mem_enum_iff_get?.mp henum, ?_⟩
    simpa using hfi
  · rintro ⟨i, hget, hfi⟩
    refine List.mem_map.mpr ⟨(i, y), List.mem_filter.mpr ⟨?_, ?_⟩, rfl⟩
    · exact List.mem_enum_iff_get?.mpr hget
    · simpa using hfi

/-- The dedup output is a sublist of the input. -/
theorem uniqueProducts_sublist (l : List Item) : List.Sublist (uniqueProducts l) l := by
  unfold uniqueProducts
  have h1 := List.Sublist.map Prod.snd
    (List.filter_sublist (l := l.enum)
      (p := fun pi => jsFindIndex (fun p => sameKey p pi.2) l == (pi.1 : Int)))
  rw [List.enum_map_snd] at h1
  exact h1

/-- Every member of the dedup output is the first occurrence of its own
`(name, store)` key in the input. -/
theorem uniqueProducts_mem_is_first {l : List Item} {y : Item} (hy : y ∈ uniqueProducts l) :
    l.find? (fun q => sameKey q y) = some y := by
  obtain ⟨i, hget, hfi⟩ := mem_uniqueProducts_iff.mp hy
  obtain ⟨x, hget', hfind⟩ := jsFindIndex_spec _ _ _ hfi
  have hxy : x = y := by
    rw [hget] at hget'
    exact (Option.some_inj.mp hget').symm
  subst hxy
  exact hfind

/-- For every input item, the first occurrence of its key survives dedup. -/
theorem uniqueProducts_keeps_first {l : List Item} {x : Item} (hx : x ∈ l) :
    ∃ y, l.find? (fun q => sameKey q x) = some y ∧ y ∈ uniqueProducts l := by
  obtain ⟨i, hget⟩ := List.mem_iff_get?.mp hx
  obtain ⟨j, hji, hje⟩ :=
    jsFindIndex_le (fun q => sameKey q x) l i x hget (sameKey_self x)
  obtain ⟨y, hgety, hfindy⟩ := jsFindIndex_spec _ _ _ hje
  have hpy : sameKey y x = true := by simpa using List.find?_some hfindy
  have hky : keyOf y = keyOf x := sameKey_iff.mp hpy
  refine ⟨y, hfindy, mem_uniqueProducts_iff.mpr ⟨j, hgety, ?_⟩⟩
  rw [sameKey_congr hky]
  exact hje

/-- The dedup output has pairwise distinct `(name, store)` keys. -/
theorem uniqueProducts_keys_nodup (l : List Item) :
    ((uniqueProducts l).map keyOf).Nodup := by
  unfold uniqueProducts
  rw [List.map_map]
  have hnd_enum : l.enum.Nodup := by
    apply List.Nodup.of_map Prod.fst
    rw [List.enum_map_fst]
    exact List.nodup_range _
  have hnd_filtered :=
    (List.filter_sublist (l := l.enum)
      (p := fun pi => jsFindIndex (fun p => sameKey p pi.2) l == (pi.1 : Int))).nodup hnd_enum
  apply List.Nodup.map_on ?_ hnd_filtered
  intro a ha b hb hk
  obtain ⟨haenum, hafi⟩ := List.mem_filter.mp ha
  obtain ⟨hbenum, hbfi⟩ := List.mem_filter.mp hb
  have hafi' : jsFindIndex (fun p => sameKey p a.2) l = (a.1 : Int) := by simpa using hafi
  have hbfi' : jsFindIndex (fun p => sameKey p b.2) l = (b.1 : Int) := by simpa using hbfi
  have hkk : keyOf a.2 = keyOf b.2 := hk
  rw [sameKey_congr hkk] at hafi'
  have hab : (a.1 : Int) = (b.1 : Int) := hafi' ▸ hbfi'
  have hab1 : a.1 = b.1 := by exact_mod_cast hab
  have hga : l.get? a.1 = some a.2 := List.mem_enum_iff_get?.mp haenum
  have hgb : l.get? b.1 = some b.2 := List.mem_enum_iff_get?.mp hbenum
  rw [hab1] at hga
  rw [hga] at hgb
  have : a.2 = b.2 := Option.some_inj.mp hgb
  exact Prod.ext hab1 this

/-- On inputs whose keys are already pairwise distinct, dedup is the
identity. -/
theorem uniqueProducts_of_keys_nodup {l : List Item} (hnd : (l.map keyOf).Nodup) :
    uniqueProducts l = l := by
  have hfix : l.enum.filter
      (fun pi => jsFindIndex (fun p => sameKey p pi.2) l == (pi.1 : Int)) = l.enum := by
    apply List.filter_eq_self.mpr
    intro a hmem
    have hget : l.get? a.1 = some a.2 := List.mem_enum_iff_get?.mp hmem
    obtain ⟨j, hji, hje⟩ :=
      jsFindIndex_le (fun q => sameKey q a.2) l a.1 a.2 hget (sameKey_self a.2)
    obtain ⟨y, hgety, hfindy⟩ := jsFindIndex_spec _ _ _ hje
    have hpy : sameKey y a.2 = true := by simpa using List.find?_some hfindy
    have hky : keyOf y = keyOf a.2 := sameKey_iff.mp hpy
    have h1 : (l.map keyOf).get? j = some (keyOf a.2) := by
      rw [List.get?_map, hgety]
      simp [hky]
    have h2 : (l.map keyOf).get? a.1 = some (keyOf a.2) := by
      rw [List.get?_map, hget]
      rfl
    have hij : j = a.1 := get?_inj_of_nodup hnd h1 h2
    rw [hij] at hje
    simp [hje]
  unfold uniqueProducts
  rw [hfix, List.enum_map_snd]

/-- C6: the dedup step of `scrapeAllStores` keeps exactly the first occurrence
of every `(name, store)` key — the output is a sublist of the input, each
output item is the literal first occurrence of its key (so a later duplicate's
price/url are never merged in), each input key is represented, keys are
pairwise distinct in the output — and dedup is idempotent: it is the identity
on any already-deduplicated list. -/
theorem uniqueProducts_first_occurrence (l : List Item) :
    List.Sublist (uniqueProducts l) l ∧
    (∀ y ∈ uniqueProducts l, l.find? (fun q => sameKey q y) = some y) ∧
    (∀ x ∈ l, ∃ y, l.find? (fun q => sameKey q x) = some y ∧ y ∈ uniqueProducts l) ∧
    ((uniqueProducts l).map keyOf).Nodup ∧
    ((l.map keyOf).Nodup → uniqueProducts l = l) ∧
    uniqueProducts (uniqueProducts l) = uniqueProducts l :=
  ⟨uniqueProducts_sublist l,
   fun _ hy => uniqueProducts_mem_is_first hy,
   fun _ hx => uniqueProducts_keeps_first hx,
   uniqueProducts_keys_nodup l,
   fun hnd => uniqueProducts_of_keys_nodup hnd,
   uniqueProducts_of_keys_nodup (uniqueProducts_keys_nodup l)⟩

/-- Witness for C6 at a concrete list with one duplicated key: the first
occurrence of key `("A", "S")` survives dedup. -/
theorem uniqueProducts_first_occurrence_witness :
    ∃ y, itemsC6.find? (fun q => sameKey q itemC6a) = some y ∧ y ∈ uniqueProducts itemsC6 :=
  (uniqueProducts_first_occurrence itemsC6).2.2.1 itemC6a (by decide)

/-! ### C7 -/

/-- An item produced by `extractSingleProduct` carries the category computed
from its own name (GPU checked first), and its name is the extracted one. -/
theorem extractSingleProduct_category {element : Element}
    {storeName storeBaseUrl : String} {nameSelectors priceSelectors : List String}
    {product : Item}
    (h : extractSingleProduct element storeName storeBaseUrl nameSelectors priceSelectors =
      some product) :
    product.category = (if isGPU product.name then Category.GPU else Category.CPU) := by
  unfold extractSingleProduct at h
  dsimp only at h
  split at h
  · exact absurd h (by simp)
  · have hp := Option.some_inj.mp h
    subst hp
    rfl

/-- C7: every item surviving `extractProducts` matches the GPU or the CPU
keyword list (everything else is dropped), and its category is `GPU` exactly
when the GPU list matches (GPU checked first), `CPU` otherwise. -/
theorem extractProducts_keyword_filter (document : Document)
    (storeName storeBaseUrl : String) :
    ∀ product ∈ extractProducts document storeName storeBaseUrl,
      (isGPU product.name || isCPU product.name) = true ∧
      (product.category = Category.GPU ↔ isGPU product.name = true) ∧
      (product.category = Category.CPU ↔ isGPU product.name = false) := by
  intro product hmem
  unfold extractProducts at hmem
  obtain ⟨hmem', hkw⟩ := List.mem_filter.mp hmem
  have hcat : product.category = (if isGPU product.name then Category.GPU else Category.CPU) := by
    cases hfind : PRODUCT_SELECTORS.find?
        (fun sel => decide (0 < (document.elemsOf sel).length)) with
    | none =>
      rw [hfind] at hmem'
      simp at hmem'
    | some sel =>
      rw [hfind] at hmem'
      obtain ⟨element, _, hex⟩ := List.mem_filterMap.mp hmem'
      exact extractSingleProduct_category hex
  refine ⟨hkw, ?_, ?_⟩
  · by_cases hgpu : isGPU product.name <;> simp [hcat, hgpu]
  · by_cases hgpu : isGPU product.name <;> simp [hcat, hgpu]

/-- Witness for C7 at a concrete document holding one GPU product. -/
theorem extractProducts_keyword_filter_witness :
    (isGPU itemC7w.name || isCPU itemC7w.name) = true ∧
    (itemC7w.category = Category.GPU ↔ isGPU itemC7w.name = true) ∧
    (itemC7w.category = Category.CPU ↔ isGPU itemC7w.name = false) :=
  extractProducts_keyword_filter docC7 "S" "https://s.example" itemC7w (by decide)

/-! ### C10 -/

/-- Membership survives the `Set`-style dedup. -/
theorem mem_jsSetDedup {x : String} :
    ∀ {seen l : List String}, x ∈ l → x ∉ seen → x ∈ jsSetDedup seen l := by
  intro seen l
  induction l generalizing seen with
  | nil => intro h _; simp at h
  | cons y ys ih =>
    intro hmem hseen
    unfold jsSetDedup
    by_cases hy : y ∈ seen
    · rw [if_pos hy]
      rcases List.mem_cons.mp hmem with rfl | hmem'
      · exact absurd hy hseen
      · exact ih hmem' hseen
    · rw [if_neg hy]
      rcases List.mem_cons.mp hmem with rfl | hmem'
      · exact List.mem_cons_self _ _
      · by_cases hxy : x = y
        · subst hxy; exact List.mem_cons_self _ _
        · exact List.mem_cons_of_mem _ (ih hmem' (by simp [hseen, hxy]))

/-- Looking up any listed name in the id-assigning association list built by
`createStoreMap` succeeds and returns a store with that name. -/
theorem find?_enumFrom_built (ns : List String) (i : Nat) (n : String) (h : n ∈ ns) :
    ∃ st, ((List.enumFrom i ns).map
        (fun p => (p.2, McpStore.mk (some (p.1 + 1)) p.2))).find? (fun e => e.1 == n) =
      some (n, st) ∧ st.name = n := by
  induction ns generalizing i with
  | nil => simp at h
  | cons x xs ih =>
    by_cases hxn : x = n
    · subst hxn
      exact ⟨McpStore.mk (some (i + 1)) x, by simp [List.find?], rfl⟩
    · have hmem : n ∈ xs := by
        rcases List.mem_cons.mp h with rfl | hm
        · exact absurd rfl hxn
        · exact hm
      obtain ⟨st, hst, hname⟩ := ih (i + 1) hmem
      refine ⟨st, ?_, hname⟩
      have hstep : (List.enumFrom i (x :: xs)).map
          (fun p => (p.2, McpStore.mk (some (p.1 + 1)) p.2)) =
          (x, McpStore.mk (some (i + 1)) x) ::
            (List.enumFrom (i + 1) xs).map
              (fun p => (p.2, McpStore.mk (some (p.1 + 1)) p.2)) := rfl
      rw [hstep, List.find?_cons_of_neg _ (by simp [hxn])]
      exact hst

/-- `createStoreMap` resolves every store name occurring in the product list. -/
theorem storeMapGet_createStoreMap {products : List Item} {name : String}
    (h : name ∈ products.map (fun p => p.store)) :
    ∃ st, storeMapGet (createStoreMap products) name = some st ∧ st.name = name := by
  have hdedup : name ∈ jsSetDedup [] (products.map (fun p => p.store)) :=
    mem_jsSetDedup h (by simp)
  obtain ⟨st, hst, hname⟩ :=
    find?_enumFrom_built (jsSetDedup [] (products.map (fun p => p.store))) 0 name hdedup
  refine ⟨st, ?_, hname⟩
  unfold storeMapGet createStoreMap
  rw [List.enum]
  rw [hst]
  rfl

/-- When every item's store resolves in the map, the item-wise transformation
succeeds and relates input and output field-by-field. -/
theorem mapM_transformItemToMcp_ok {storeMap : List (String × McpStore)} :
    ∀ {l : List Item},
    (∀ item ∈ l, ∃ st, storeMapGet storeMap item.store = some st ∧ st.name = item.store) →
    ∃ out, l.mapM (fun item => transformItemToMcp item storeMap) = Except.ok out ∧
      List.Forall₂ (fun (p : Item) (m : McpItem) =>
        m.name = p.name ∧ m.price = p.price ∧ m.url = p.url ∧
        m.item_type = p.category ∧ m.store.name = p.store) l out := by
  intro l
  induction l with
  | nil => exact fun _ => ⟨[], rfl, List.Forall₂.nil⟩
  | cons a as ih =>
    intro h
    obtain ⟨st, hst, hname⟩ := h a (List.mem_cons_self a as)
    have ha : transformItemToMcp a storeMap = Except.ok (mcpOf a st) := by
      unfold transformItemToMcp mcpOf
      rw [hst]
    obtain ⟨out, hout, hrel⟩ := ih (fun item hit => h item (List.mem_cons_of_mem _ hit))
    refine ⟨mcpOf a st :: out, ?_, ?_⟩
    · rw [List.mapM_cons, ha, hout]
      rfl
    · exact List.Forall₂.cons ⟨rfl, rfl, rfl, rfl, hname⟩ hrel

/-- C10: `transformScrapingResultToMcp` never throws — on every
`ScrapingResult` it returns `Except.ok`, with exactly one `McpItem` per input
product, preserving name, price and url, mapping `category` to `item_type`,
and giving each output item a store named after the product's store (so the
"not found in store map" branch of `transformItemToMcp` is unreachable). -/
theorem transformScrapingResultToMcp_total (now : String) (result : ScrapingResult) :
    ∃ out, transformScrapingResultToMcp now result =
        Except.ok { timestamp := now, items := out } ∧
      out.length = result.products.length ∧
      List.Forall₂ (fun (p : Item) (m : McpItem) =>
        m.name = p.name ∧ m.price = p.price ∧ m.url = p.url ∧
        m.item_type = p.category ∧ m.store.name = p.store) result.products out := by
  have hmem : ∀ item ∈ result.products,
      ∃ st, storeMapGet (createStoreMap result.products) item.store = some st ∧
        st.name = item.store :=
    fun item hit => storeMapGet_createStoreMap (List.mem_map.mpr ⟨item, hit, rfl⟩)
  obtain ⟨out, hout, hrel⟩ := mapM_transformItemToMcp_ok hmem
  refine ⟨out, ?_, hrel.length_eq.symm, hrel⟩
  unfold transformScrapingResultToMcp
  dsimp only
  rw [hout]
  rfl

/-! ### C4 -/

/-- `find?` commutes with mapping a function that preserves the predicate. -/
theorem find?_map_pres {α : Type} {f : α → α} {p : α → Bool}
    (hf : ∀ r, p (f r) = p r) : ∀ l : List α, (l.map f).find? p = (l.find? p).map f := by
  intro l
  induction l with
  | nil => rfl
  | cons a as ih =>
    by_cases h : p a
    · have hfa : p (f a) = true := by rw [hf]; exact h
      rw [List.map_cons, List.find?_cons_of_pos _ hfa, List.find?_cons_of_pos _ h]
      rfl
    · have h' : p a = false := by simpa using h
      have hfa : p (f a) = false := by rw [hf]; exact h'
      rw [List.map_cons, List.find?_cons_of_neg _ (by simp [hfa]),
        List.find?_cons_of_neg _ (by simp [h'])]
      exact ih

/-- `updateItem` rewrites only price/url, so the lookup of any item is
unchanged. -/
theorem findItemId_updateItem (db : Db) (p q : Item) (itemId storeId : Nat) :
    findItemId (updateItem db q itemId) p storeId = findItemId db p storeId := by
  unfold findItemId updateItem
  dsimp only
  have hpres : ∀ r : ItemRow,
      (fun r : ItemRow => r.name == p.name && r.store_id == storeId
        && r.item_type == p.category)
        (if r.id == itemId then { r with price := q.price, url := q.url } else r) =
      (fun r : ItemRow => r.name == p.name && r.store_id == storeId
        && r.item_type == p.category) r := by
    intro r
    by_cases h : r.id == itemId <;> simp [h]
  rw [find?_map_pres hpres]
  cases db.items.find?
      (fun r => r.name == p.name && r.store_id == storeId && r.item_type == p.category) with
  | none => rfl
  | some r =>
    dsimp only [Option.map]
    split <;> rfl

/-- Looking up an item whose lookup identity agrees with another item's gives
the same answer. -/
theorem findItemId_congr (db : Db) {i1 i2 : Item} (storeId : Nat)
    (hn : i2.name = i1.name) (hc : i2.category = i1.category) :
    findItemId db i2 storeId = findItemId db i1 storeId := by
  unfold findItemId
  rw [hn, hc]

/-- The update branch of `getOrCreateItemId`, taken when the lookup succeeds
with a (truthy, i.e. non-zero) existing id. -/
theorem getOrCreateItemId_eq_update {db : Db} {i : Item} {storeId j : Nat}
    (hfind : findItemId db i storeId = some j) (hj : j ≠ 0) :
    getOrCreateItemId db i storeId = (updateItem db i j, j) := by
  unfold getOrCreateItemId
  rw [hfind]
  dsimp only
  rw [if_pos hj]

/-- The insert branch of `getOrCreateItemId`, taken when the lookup fails. -/
theorem getOrCreateItemId_eq_insert {db : Db} {i : Item} {storeId : Nat}
    (hfind : findItemId db i storeId = none) :
    getOrCreateItemId db i storeId = insertItem db i storeId := by
  unfold getOrCreateItemId
  rw [hfind]

/-- After one `getOrCreateItemId` on a well-formed database, the item's
identity resolves to the returned id, the id is non-zero, well-formedness is
preserved, and a row with that id and the item's identity is present. -/
theorem getOrCreateItemId_establishes (db : Db) (i : Item) (storeId : Nat)
    (hWF : DbWF db) :
    (getOrCreateItemId db i storeId).2 ≠ 0 ∧
    findItemId (getOrCreateItemId db i storeId).1 i storeId =
      some (getOrCreateItemId db i storeId).2 ∧
    DbWF (getOrCreateItemId db i storeId).1 ∧
    (∃ r, r ∈ (getOrCreateItemId db i storeId).1.items ∧
      r.id = (getOrCreateItemId db i storeId).2 ∧
      r.name = i.name ∧ r.store_id = storeId ∧ r.item_type = i.category) := by
  cases hfind : findItemId db i storeId with
  | some j =>
    obtain ⟨r0, hr0find, hr0id⟩ : ∃ r0, db.items.find?
        (fun r => r.name == i.name && r.store_id == storeId
          && r.item_type == i.category) = some r0 ∧ r0.id = j := by
      unfold findItemId at hfind
      cases hf : db.items.find?
          (fun r => r.name == i.name && r.store_id == storeId
            && r.item_type == i.category) with
      | none => rw [hf] at hfind; exact absurd hfind (by simp)
      | some r0 =>
        rw [hf] at hfind
        exact ⟨r0, rfl, by simpa using hfind⟩
    have hr0mem : r0 ∈ db.items := List.mem_of_find?_eq_some hr0find
    have hr0pred := List.find?_some hr0find
    have hr0name : r0.name = i.name := by
      simp only [Bool.and_eq_true, beq_iff_eq] at hr0pred
      exact hr0pred.1.1
    have hr0store : r0.store_id = storeId := by
      simp only [Bool.and_eq_true, beq_iff_eq] at hr0pred
      exact hr0pred.1.2
    have hr0type : r0.item_type = i.category := by
      simp only [Bool.and_eq_true, beq_iff_eq] at hr0pred
      exact hr0pred.2
    have hj : j ≠ 0 := hr0id ▸ hWF.2 r0 hr0mem
    rw [getOrCreateItemId_eq_update hfind hj]
    refine ⟨hj, ?_, ?_, ?_⟩
    · rw [findItemId_updateItem, hfind]
    · refine ⟨hWF.1, ?_⟩
      intro r hr
      unfold updateItem at hr
      obtain ⟨r1, hr1, hfr⟩ := List.mem_map.mp hr
      have : r.id = r1.id := by
        rw [← hfr]
        by_cases h : r1.id == j <;> simp [h]
      rw [this]
      exact hWF.2 r1 hr1
    · refine ⟨{ r0 with price := i.price, url := i.url }, ?_, by simp [hr0id],
        by simp [hr0name], by simp [hr0store], by simp [hr0type]⟩
      unfold updateItem
      dsimp only
      have : { r0 with price := i.price, url := i.url } =
          (fun r : ItemRow =>
            if r.id == j then { r with price := i.price, url := i.url } else r) r0 := by
        simp [hr0id]
      rw [this]
      exact List.mem_map_of_mem _ hr0mem
  | none =>
    have hnone : db.items.find?
        (fun r => r.name == i.name && r.store_id == storeId
          && r.item_type == i.category) = none := by
      unfold findItemId at hfind
      cases hf : db.items.find?
          (fun r => r.name == i.name && r.store_id == storeId
            && r.item_type == i.category) with
      | none => rfl
      | some r0 => rw [hf] at hfind; exact absurd hfind (by simp)
    rw [getOrCreateItemId_eq_insert hfind]
    have hrow : insertItem db i storeId =
        ({ items := db.items ++
            [{ id := db.nextId, price := i.price, name := i.name, url := i.url,
               store_id := storeId, item_type := i.category }],
           nextId := db.nextId + 1 }, db.nextId) := rfl
    rw [hrow]
    refine ⟨hWF.1, ?_, ?_, ?_⟩
    · unfold findItemId
      dsimp only
      rw [List.find?_append, hnone]
      simp [List.find?]
    · refine ⟨by simp, ?_⟩
      intro r hr
      simp only [List.mem_append, List.mem_singleton] at hr
      rcases hr with hr | rfl
      · exact hWF.2 r hr
      · exact hWF.1
    · exact ⟨_, List.mem_append_right _ (List.mem_singleton_self _), rfl, rfl, rfl, rfl⟩

/-- C4: calling `getOrCreateItemId` twice with the same
`(name, storeId, category)` identity and different prices returns the same id
both times and adds no second row on the second call — only the matched row's
price and url are rewritten in place (latest value survives); and the first
call either returns the id of the already matching row (updating it) or
inserts exactly one new row whose fresh id is returned. -/
theorem getOrCreateItemId_upsert (db : Db) (storeId : Nat) (i1 i2 : Item)
    (hWF : DbWF db) (hn : i2.name = i1.name) (hc : i2.category = i1.category) :
    (getOrCreateItemId (getOrCreateItemId db i1 storeId).1 i2 storeId).2 =
      (getOrCreateItemId db i1 storeId).2 ∧
    (getOrCreateItemId (getOrCreateItemId db i1 storeId).1 i2 storeId).1.items.length =
      (getOrCreateItemId db i1 storeId).1.items.length ∧
    (getOrCreateItemId (getOrCreateItemId db i1 storeId).1 i2 storeId).1.items =
      (getOrCreateItemId db i1 storeId).1.items.map
        (fun r => if r.id == (getOrCreateItemId db i1 storeId).2 then
            { r with price := i2.price, url := i2.url } else r) ∧
    (∃ r, r ∈ (getOrCreateItemId (getOrCreateItemId db i1 storeId).1 i2 storeId).1.items ∧
      r.id = (getOrCreateItemId db i1 storeId).2 ∧ r.price = i2.price ∧ r.url = i2.url ∧
      r.name = i1.name ∧ r.store_id = storeId ∧ r.item_type = i1.category) ∧
    (findItemId db i1 storeId = none →
      (getOrCreateItemId db i1 storeId).2 = db.nextId ∧
      (getOrCreateItemId db i1 storeId).1.items.length = db.items.length + 1) ∧
    (∀ j, findItemId db i1 storeId = some j →
      (getOrCreateItemId db i1 storeId).2 = j ∧
      (getOrCreateItemId db i1 storeId).1.items.length = db.items.length) := by
  obtain ⟨hid0, hfind1, hWF1, r1, hr1mem, hr1id, hr1name, hr1store, hr1type⟩ :=
    getOrCreateItemId_establishes db i1 storeId hWF
  have hfind2 : findItemId (getOrCreateItemId db i1 storeId).1 i2 storeId =
      some (getOrCreateItemId db i1 storeId).2 := by
    rw [findItemId_congr _ storeId hn hc]
    exact hfind1
  rw [getOrCreateItemId_eq_update hfind2 hid0]
  refine ⟨rfl, by simp [updateItem], rfl, ?_, ?_, ?_⟩
  · refine ⟨{ r1 with price := i2.price, url := i2.url }, ?_, by simp [hr1id],
      by simp, by simp, by simp [hr1name], by simp [hr1store], by simp [hr1type]⟩
    unfold updateItem
    dsimp only
    have : { r1 with price := i2.price, url := i2.url } =
        (fun r : ItemRow =>
          if r.id == (getOrCreateItemId db i1 storeId).2 then
            { r with price := i2.price, url := i2.url } else r) r1 := by
      simp [hr1id]
    rw [this]
    exact List.mem_map_of_mem _ hr1mem
  · intro hnone
    rw [getOrCreateItemId_eq_insert hnone]
    exact ⟨rfl, by simp [insertItem]⟩
  · intro j hsome
    obtain ⟨r0, hr0find, hr0id⟩ : ∃ r0, db.items.find?
        (fun r => r.name == i1.name && r.store_id == storeId
          && r.item_type == i1.category) = some r0 ∧ r0.id = j := by
      unfold findItemId at hsome
      cases hf : db.items.find?
          (fun r => r.name == i1.name && r.store_id == storeId
            && r.item_type == i1.category) with
      | none => rw [hf] at hsome; exact absurd hsome (by simp)
      | some r0 =>
        rw [hf] at hsome
        exact ⟨r0, rfl, by simpa using hsome⟩
    have hj : j ≠ 0 := hr0id ▸ hWF.2 r0 (List.mem_of_find?_eq_some hr0find)
    rw [getOrCreateItemId_eq_update hsome hj]
    exact ⟨rfl, by simp [updateItem]⟩

/-- Witness for C4: two observations of the same identity against a fresh
database yield the same id and a single row carrying the later price. -/
theorem getOrCreateItemId_upsert_witness :
    (getOrCreateItemId (getOrCreateItemId dbC4 itemC4a 1).1 itemC4b 1).2 =
      (getOrCreateItemId dbC4 itemC4a 1).2 ∧
    (getOrCreateItemId (getOrCreateItemId dbC4 itemC4a 1).1 itemC4b 1).1.items.length =
      (getOrCreateItemId dbC4 itemC4a 1).1.items.length :=
  ⟨(getOrCreateItemId_upsert dbC4 1 itemC4a itemC4b
      ⟨by decide, by decide⟩ rfl rfl).1,
   (getOrCreateItemId_upsert dbC4 1 itemC4a itemC4b
      ⟨by decide, by decide⟩ rfl rfl).2.1⟩

/-! ### C3 -/

/-- Unfolding of `clientStep` on an inbound message with an id. -/
theorem clientStep_message_some_eq (s : ClientState) (id : Nat) (isErr : Bool) (code : Int) :
    clientStep s (ClientEvent.message (some id) isErr code) =
      (match s.pending.find? (fun e => e.1 == id) with
       | some _ =>
         ({ s with pending := pendingRemove s.pending id },
          some (id, if isErr then Outcome.rpcError code else Outcome.ok))
       | none => (s, none)) := rfl

/-- Unfolding of `clientStep` on a firing timer. -/
theorem clientStep_timer_eq (s : ClientState) (id : Nat) :
    clientStep s (ClientEvent.timer id) =
      (match s.pending.find? (fun e => e.1 == id) with
       | some e =>
         ({ s with pending := pendingRemove s.pending id },
          some (id, Outcome.timedOut e.2))
       | none => (s, none)) := rfl

/-- A message whose id has no pending entry is ignored: no state change, no
resolution. -/
theorem clientStep_message_not_pending {s : ClientState} {id : Nat}
    (h : pendingHas s.pending id = false) (isErr : Bool) (code : Int) :
    clientStep s (ClientEvent.message (some id) isErr code) = (s, none) := by
  have hfind : s.pending.find? (fun e => e.1 == id) = none := by
    rw [List.find?_eq_none]
    intro e he hbeq
    have : s.pending.any (fun e => e.1 == id) = true := List.any_eq_true.mpr ⟨e, he, hbeq⟩
    rw [pendingHas] at h
    rw [h] at this
    exact Bool.noConfusion this
  rw [clientStep_message_some_eq, hfind]

/-- Removal really removes: after `pendingRemove` the id is gone. -/
theorem pendingHas_pendingRemove (pending : List (Nat × String)) (id : Nat) :
    pendingHas (pendingRemove pending id) id = false := by
  unfold pendingHas
  cases hb : (pendingRemove pending id).any (fun e => e.1 == id) with
  | false => rfl
  | true =>
    exfalso
    obtain ⟨e, he, hbeq⟩ := List.any_eq_true.mp hb
    have hf := (List.mem_filter.mp he).2
    rw [hbeq] at hf
    exact Bool.noConfusion hf

/-- With pairwise distinct pending ids, `find?` on an id returns exactly the
pending entry holding it. -/
theorem find?_pending_of_mem {pending : List (Nat × String)}
    (hnd : (pending.map Prod.fst).Nodup) {id : Nat} {method : String}
    (hmem : (id, method) ∈ pending) :
    pending.find? (fun e => e.1 == id) = some (id, method) := by
  induction pending with
  | nil => simp at hmem
  | cons a rest ih =>
    rw [List.map_cons] at hnd
    by_cases ha : (a.1 == id) = true
    · have haid : a.1 = id := by simpa using ha
      have hae : a = (id, method) := by
        rcases List.mem_cons.mp hmem with h | h
        · exact h.symm
        · exfalso
          have : id ∈ rest.map Prod.fst := List.mem_map.mpr ⟨(id, method), h, rfl⟩
          rw [← haid] at this
          exact (List.nodup_cons.mp hnd).1 this
      subst hae
      exact List.find?_cons_of_pos _ (by simp)
    · have hrest : (id, method) ∈ rest := by
        rcases List.mem_cons.mp hmem with h | h
        · exfalso
          rw [← h] at ha
          simp at ha
        · exact h
      rw [List.find?_cons_of_neg _ (by simpa using ha)]
      exact ih (List.nodup_cons.mp hnd).2 hrest

/-- Every single transition of the client state machine preserves the
correlation invariant, appending at most one resolution. -/
theorem clientStep_inv {s : ClientState} {outs : List (Nat × Outcome)}
    (e : ClientEvent) (h : ClientInv s outs) :
    ClientInv (clientStep s e).1 (outs ++ (clientStep s e).2.toList) := by
  obtain ⟨hpend, hpnd, houts, hond⟩ := h
  cases e with
  | call method =>
    have hstep : clientStep s (ClientEvent.call method) =
        ({ callIdCounter := s.callIdCounter + 1,
           pending := s.pending ++ [(s.callIdCounter + 1, method)] }, none) := rfl
    rw [hstep]
    refine ⟨?_, ?_, ?_, by simpa using hond⟩
    · intro p hp
      rcases List.mem_append.mp hp with hp | hp
      · exact ⟨Nat.le_succ_of_le (hpend p hp).1, (hpend p hp).2⟩
      · rw [List.mem_singleton.mp hp]
        exact ⟨Nat.le_refl _, Nat.succ_ne_zero _⟩
    · rw [List.map_append, List.nodup_append]
      refine ⟨hpnd, List.nodup_singleton _, ?_⟩
      intro x hx hx'
      obtain ⟨p, hp, rfl⟩ := List.mem_map.mp hx
      have hle := (hpend p hp).1
      have : p.1 = s.callIdCounter + 1 := by simpa using hx'
      omega
    · intro o ho
      have ho' : o ∈ outs := by simpa using ho
      refine ⟨Nat.le_succ_of_le (houts o ho').1, ?_⟩
      intro p hp
      rcases List.mem_append.mp hp with hp | hp
      · exact (houts o ho').2 p hp
      · rw [List.mem_singleton.mp hp]
        have h1 := (houts o ho').1
        show s.callIdCounter + 1 ≠ o.1
        omega
  | message id isErr code =>
    cases id with
    | none =>
      have hstep : clientStep s (ClientEvent.message none isErr code) = (s, none) := rfl
      rw [hstep]
      simpa using ⟨hpend, hpnd, houts, hond⟩
    | some id =>
      cases hfind : s.pending.find? (fun e => e.1 == id) with
      | none =>
        have hstep : clientStep s (ClientEvent.message (some id) isErr code) = (s, none) := by
          rw [clientStep_message_some_eq, hfind]
        rw [hstep]
        simpa using ⟨hpend, hpnd, houts, hond⟩
      | some e0 =>
        have he0mem : e0 ∈ s.pending := List.mem_of_find?_eq_some hfind
        have he0id : e0.1 = id := by simpa using List.find?_some hfind
        have hstep : clientStep s (ClientEvent.message (some id) isErr code) =
            ({ s with pending := pendingRemove s.pending id },
             some (id, if isErr then Outcome.rpcError code else Outcome.ok)) := by
          rw [clientStep_message_some_eq, hfind]
        rw [hstep]
        refine ⟨?_, ?_, ?_, ?_⟩
        · intro p hp
          exact hpend p (List.mem_filter.mp hp).1
        · have hsub := List.Sublist.map Prod.fst
            (List.filter_sublist (l := s.pending) (p := fun e => !(e.1 == id)))
          exact hsub.nodup hpnd
        · intro o ho
          rcases List.mem_append.mp ho with ho | ho
          · refine ⟨(houts o ho).1, ?_⟩
            intro p hp
            exact (houts o ho).2 p (List.mem_filter.mp hp).1
          · rw [List.mem_singleton.mp ho]
            refine ⟨he0id ▸ (hpend e0 he0mem).1, ?_⟩
            intro p hp
            have := (List.mem_filter.mp hp).2
            intro hpe
            rw [hpe] at this
            simp at this
        · rw [List.map_append, List.nodup_append]
          refine ⟨hond, by simp, ?_⟩
          intro x hx hx'
          obtain ⟨o, ho, rfl⟩ := List.mem_map.mp hx
          have : o.1 = id := by simpa using hx'
          have hne := (houts o ho).2 e0 he0mem
          rw [he0id, this] at hne
          exact hne rfl
  | timer id =>
    cases hfind : s.pending.find? (fun e => e.1 == id) with
    | none =>
      have hstep : clientStep s (ClientEvent.timer id) = (s, none) := by
        rw [clientStep_timer_eq, hfind]
      rw [hstep]
      simpa using ⟨hpend, hpnd, houts, hond⟩
    | some e0 =>
      have he0mem : e0 ∈ s.pending := List.mem_of_find?_eq_some hfind
      have he0id : e0.1 = id := by simpa using List.find?_some hfind
      have hstep : clientStep s (ClientEvent.timer id) =
          ({ s with pending := pendingRemove s.pending id },
           some (id, Outcome.timedOut e0.2)) := by
        rw [clientStep_timer_eq, hfind]
      rw [hstep]
      refine ⟨?_, ?_, ?_, ?_⟩
      · intro p hp
        exact hpend p (List.mem_filter.mp hp).1
      · have hsub := List.Sublist.map Prod.fst
          (List.filter_sublist (l := s.pending) (p := fun e => !(e.1 == id)))
        exact hsub.nodup hpnd
      · intro o ho
        rcases List.mem_append.mp ho with ho | ho
        · refine ⟨(houts o ho).1, ?_⟩
          intro p hp
          exact (houts o ho).2 p (List.mem_filter.mp hp).1
        · rw [List.mem_singleton.mp ho]
          refine ⟨he0id ▸ (hpend e0 he0mem).1, ?_⟩
          intro p hp
          have := (List.mem_filter.mp hp).2
          intro hpe
          rw [hpe] at this
          simp at this
      · rw [List.map_append, List.nodup_append]
        refine ⟨hond, by simp, ?_⟩
        intro x hx hx'
        obtain ⟨o, ho, rfl⟩ := List.mem_map.mp hx
        have : o.1 = id := by simpa using hx'
        have hne := (houts o ho).2 e0 he0mem
        rw [he0id, this] at hne
        exact hne rfl

/-- The correlation invariant holds after any event sequence from the freshly
constructed client. -/
theorem clientRun_inv (evs : List ClientEvent) :
    ClientInv (clientRun evs).1 (clientRun evs).2 := by
  suffices h : ∀ (acc : ClientState × List (Nat × Outcome)), ClientInv acc.1 acc.2 →
      ClientInv (evs.foldl
        (fun acc e =>
          let r := clientStep acc.1 e
          (r.1, acc.2 ++ r.2.toList)) acc).1
        (evs.foldl
          (fun acc e =>
            let r := clientStep acc.1 e
            (r.1, acc.2 ++ r.2.toList)) acc).2 by
    exact h ({ callIdCounter := 0, pending := [] }, []) ⟨by simp, by simp, by simp, by simp⟩
  induction evs with
  | nil => exact fun acc h => h
  | cons e rest ih =>
    intro acc hacc
    exact ih (clientStep acc.1 e |>.1, acc.2 ++ (clientStep acc.1 e).2.toList)
      (clientStep_inv e hacc)

/-- C3: along every event sequence of the MCP client, a new call is assigned
the fresh id `callIdCounter + 1` — strictly greater than every pending id —
and recorded in the pending map; each call resolves at most once (the emitted
resolution ids are pairwise distinct); an inbound message whose id is absent
from the pending map (or missing altogether) is ignored without error; a
timeout firing while its call is pending removes the entry and rejects with a
timeout error naming the method of that call; and a response arriving after
that removal is a no-op. -/
theorem mcpClient_call_correlation (evs : List ClientEvent) :
    (∀ method,
        (clientStep (clientRun evs).1 (ClientEvent.call method)).1.callIdCounter =
          (clientRun evs).1.callIdCounter + 1 ∧
        ((clientRun evs).1.callIdCounter + 1, method) ∈
          (clientStep (clientRun evs).1 (ClientEvent.call method)).1.pending ∧
        (∀ p ∈ (clientRun evs).1.pending, p.1 < (clientRun evs).1.callIdCounter + 1) ∧
        (clientStep (clientRun evs).1 (ClientEvent.call method)).2 = none) ∧
    ((clientRun evs).2.map Prod.fst).Nodup ∧
    (∀ id isErr code, pendingHas (clientRun evs).1.pending id = false →
        clientStep (clientRun evs).1 (ClientEvent.message (some id) isErr code) =
          ((clientRun evs).1, none)) ∧
    (∀ isErr code, clientStep (clientRun evs).1 (ClientEvent.message none isErr code) =
        ((clientRun evs).1, none)) ∧
    (∀ id method, (id, method) ∈ (clientRun evs).1.pending →
        clientStep (clientRun evs).1 (ClientEvent.timer id) =
          ({ (clientRun evs).1 with
              pending := pendingRemove (clientRun evs).1.pending id },
           some (id, Outcome.timedOut method)) ∧
        (∀ isErr code, clientStep
            { (clientRun evs).1 with
                pending := pendingRemove (clientRun evs).1.pending id }
            (ClientEvent.message (some id) isErr code) =
          ({ (clientRun evs).1 with
              pending := pendingRemove (clientRun evs).1.pending id },
           none))) := by
  obtain ⟨hpend, hpnd, _, hond⟩ := clientRun_inv evs
  refine ⟨?_, hond, ?_, ?_, ?_⟩
  · intro method
    refine ⟨rfl, ?_, ?_, rfl⟩
    · exact List.mem_append_right _ (List.mem_singleton_self _)
    · intro p hp
      have := (hpend p hp).1
      omega
  · intro id isErr code h
    exact clientStep_message_not_pending h isErr code
  · intro isErr code
    rfl
  · intro id method hmem
    have hfind := find?_pending_of_mem hpnd hmem
    constructor
    · rw [clientStep_timer_eq, hfind]
    · intro isErr code
      exact clientStep_message_not_pending
        (by simpa using pendingHas_pendingRemove (clientRun evs).1.pending id) isErr code

/-- Witness for C3: after one `tools/list` call, the armed timeout firing
removes the single pending entry and rejects naming `tools/list`. -/
theorem mcpClient_call_correlation_witness :
    clientStep (clientRun [ClientEvent.call "tools/list"]).1 (ClientEvent.timer 1) =
      ({ (clientRun [ClientEvent.call "tools/list"]).1 with
          pending := pendingRemove (clientRun [ClientEvent.call "tools/list"]).1.pending 1 },
       some (1, Outcome.timedOut "tools/list")) :=
  ((mcpClient_call_correlation [ClientEvent.call "tools/list"]).2.2.2.2 1 "tools/list"
    (by decide)).1

end GpuScrapper
